import Mathlib

/-!
Shallow embedding of the `@jbagatta/config-engine` library (TypeScript, built on
NATS JetStream KV).  The embedding covers:

* `src/util.ts` — `namespacedKey`, `namespaceWatchFilter`, `getConfigKeysAndValues`
  (the recursive patch-flattener);
* `src/config-engine.ts` — the `ConfigEngine` live mirror: snapshot cache,
  listener registry, revision-gated reconciliation (`handleConfigChange`),
  feed-entry processing (`processEntry`), `get` / `addListener` /
  `removeListener` / `close` / `checkActive`;
* `src/config-engine-manager.ts` — the writer: `set`, `patch`, `history`.

JavaScript runtime values are modelled by the inductive `JsValue`; `Map` and
`Set` are modelled by insertion-ordered association lists / deduplicated lists,
matching the iteration-order semantics of the JS originals.  Listener callbacks
are modelled by identities (`Nat`) together with an environment assigning each
identity a behaviour (return, reject asynchronously, or throw synchronously).
-/

/-- Model of a JavaScript runtime value as decoded from JSON / passed to the
patch applier.  `undef` is JavaScript `undefined` (the absent marker used by
the library); `jsNull` is JavaScript `null` (kept separate because the
flattener tests `value !== null`).  Numbers are modelled as integers: no claim
depends on floating-point behaviour. -/
inductive JsValue where
  | str (s : String)
  | num (n : Int)
  | bool (b : Bool)
  | undef
  | jsNull
  | arr (elems : List JsValue)
  | obj (fields : List (String × JsValue))
deriving Repr

/-- JavaScript `typeof value === 'object' && value !== null`: true exactly for
objects and arrays (and not for `null`, whose `typeof` is `'object'` but which
the code excludes explicitly). -/
def isObjectNonNull : JsValue → Bool
  | .obj _ => true
  | .arr _ => true
  | _ => false

/-- Source `util.ts`: `namespacedKey(namespace, path)` returns
`` `${namespace}.${path}` ``. -/
def namespacedKey (ns : String) (path : String) : String :=
  ns ++ "." ++ path

/-- Source `util.ts`: `namespaceWatchFilter(namespace)` returns
`` `${namespace}.>` ``. -/
def namespaceWatchFilter (ns : String) : String :=
  ns ++ ".>"

mutual

/-- Source `util.ts`: `getConfigKeysAndValues(config)` iterates
`Object.entries(config)`; for each `[key, value]` it recurses when
`typeof value === 'object' && value !== null` (prefixing `` `${key}.` `` onto
the recursive keys) and otherwise pushes the `(key, value)` leaf.
`Object.entries` of an object yields its own enumerable string-keyed fields in
insertion order; of an array it yields `("0", v0), ("1", v1), …`.  This
top-level entry point dispatches on the shape of the value, mirroring what
`Object.entries` produces for it. -/
def getConfigKeysAndValues : JsValue → List (String × JsValue)
  | .obj fields => flattenFields fields
  | .arr elems => flattenElems 0 elems
  | _ => []

/-- Loop of `getConfigKeysAndValues` over the entries of an object. -/
def flattenFields : List (String × JsValue) → List (String × JsValue)
  | [] => []
  | (key, value) :: rest => flattenEntry key value ++ flattenFields rest

/-- Loop of `getConfigKeysAndValues` over the entries of an array
(`Object.entries` presents element `i` under the key `toString i`). -/
def flattenElems : Nat → List JsValue → List (String × JsValue)
  | _, [] => []
  | i, value :: rest => flattenEntry (toString i) value ++ flattenElems (i + 1) rest

/-- Body of the `getConfigKeysAndValues` loop for one `[key, value]` entry:
recurse into object-typed non-null values, otherwise emit the leaf. -/
def flattenEntry (key : String) (value : JsValue) : List (String × JsValue) :=
  if isObjectNonNull value then
    (getConfigKeysAndValues value).map (fun p => (key ++ "." ++ p.1, p.2))
  else
    [(key, value)]

end

example :
    getConfigKeysAndValues
      (.obj [("a", .num 1), ("b", .obj [("c", .str "x"), ("d", .undef)])]) =
      [("a", .num 1), ("b.c", .str "x"), ("b.d", .undef)] := by
  simp [getConfigKeysAndValues, flattenFields, flattenElems, flattenEntry, isObjectNonNull]

example :
    getConfigKeysAndValues (.obj [("xs", .arr [.str "u", .str "v"])]) =
      [("xs.0", .str "u"), ("xs.1", .str "v")] := by
  simp [getConfigKeysAndValues, flattenFields, flattenElems, flattenEntry, isObjectNonNull]
  decide

/-! ## Insertion-ordered maps and sets

JavaScript `Map` preserves insertion order, `Map.set` on an existing key keeps
the key at its original position, and `Map.get` returns `undefined` for a
missing key.  JavaScript `Set.add` deduplicates by identity and appends new
members at the end. -/

/-- JavaScript `Map.get`: the value stored at `k`, if any. -/
def mapGet {α : Type} (m : List (String × α)) (k : String) : Option α :=
  (m.find? (fun p => p.1 == k)).map (fun p => p.2)

/-- JavaScript `Map.set`: overwrite in place if the key is present, otherwise
append the new binding at the end. -/
def mapSet {α : Type} (m : List (String × α)) (k : String) (v : α) :
    List (String × α) :=
  if m.any (fun p => p.1 == k) then
    m.map (fun p => if p.1 == k then (k, v) else p)
  else
    m ++ [(k, v)]

/-- JavaScript `Set.add` on a set modelled as a duplicate-free list in
insertion order. -/
def setAdd (s : List Nat) (c : Nat) : List Nat :=
  if s.contains c then s else s ++ [c]

/-- Overwriting the binding of `k` does not change lookups of other keys. -/
theorem find_overwrite {α : Type} (m : List (String × α)) (k k' : String) (v : α)
    (hne : k' ≠ k) :
    List.find? (fun p => p.1 == k') (m.map (fun p => if p.1 == k then (k, v) else p)) =
      List.find? (fun p => p.1 == k') m := by
  induction m with
  | nil => rfl
  | cons p rest ih =>
    by_cases hp : (p.1 == k) = true
    · have hpk : p.1 = k := by simpa using hp
      have h1 : ((k, v).1 == k') = false := by
        simp only [beq_eq_false_iff_ne]
        exact fun hkk => hne hkk.symm
      have h2 : (p.1 == k') = false := by rw [hpk]; exact h1
      simp only [List.map_cons, hp, if_true]
      rw [List.find?_cons_of_neg _ (by simp [h1]), List.find?_cons_of_neg _ (by simp [h2])]
      exact ih
    · simp only [List.map_cons, hp, if_false]
      by_cases hp' : (p.1 == k') = true
      · rw [List.find?_cons_of_pos _ (by simp [hp']), List.find?_cons_of_pos _ (by simp [hp'])]
        simp
      · rw [List.find?_cons_of_neg _ (by simpa using hp'), List.find?_cons_of_neg _ (by simpa using hp')]
        exact ih

/-- Overwriting the binding of `k` makes lookups of `k` return the new value,
provided `k` was already bound. -/
theorem find_overwrite_self {α : Type} (m : List (String × α)) (k : String) (v : α)
    (h : m.any (fun p => p.1 == k) = true) :
    List.find? (fun p => p.1 == k) (m.map (fun p => if p.1 == k then (k, v) else p)) =
      some (k, v) := by
  induction m with
  | nil => simp at h
  | cons p rest ih =>
    by_cases hp : (p.1 == k) = true
    · simp only [List.map_cons, hp, if_true]
      rw [List.find?_cons_of_pos _ (by simp)]
    · simp only [List.map_cons, hp, if_false]
      rw [List.find?_cons_of_neg _ (by simpa using hp)]
      apply ih
      simp only [List.any_cons, Bool.or_eq_true] at h
      rcases h with h | h
      · exact absurd h hp
      · exact h

theorem mapGet_mapSet_self {α : Type} (m : List (String × α)) (k : String) (v : α) :
    mapGet (mapSet m k v) k = some v := by
  unfold mapGet mapSet
  by_cases h : m.any (fun p => p.1 == k)
  · rw [if_pos h, find_overwrite_self m k v h]
    rfl
  · rw [if_neg h, List.find?_append]
    have hnone : List.find? (fun p => p.1 == k) m = none := by
      rw [List.find?_eq_none]
      intro x hx
      intro hxk
      exact h (List.any_eq_true.mpr ⟨x, hx, hxk⟩)
    rw [hnone]
    simp [List.find?]

theorem mapGet_mapSet_ne {α : Type} (m : List (String × α)) (k k' : String) (v : α)
    (hne : k' ≠ k) : mapGet (mapSet m k v) k' = mapGet m k' := by
  unfold mapGet mapSet
  by_cases h : m.any (fun p => p.1 == k)
  · rw [if_pos h, find_overwrite m k k' v hne]
  · rw [if_neg h, List.find?_append]
    have hnone : List.find? (fun p => p.1 == k') [(k, v)] = none := by
      rw [List.find?_eq_none]
      intro x hx hxk
      simp at hx
      subst hx
      simp only [beq_iff_eq] at hxk
      exact hne hxk.symm
    rw [hnone]
    cases List.find? (fun p => p.1 == k') m <;> rfl

/-! ## The `ConfigEngine` live mirror (`src/config-engine.ts`)

State of a `ConfigEngine` instance: the snapshot cache (`config`), the listener
registry (`watchers`, callbacks given by identity), and the `active` /
`initialized` flags.  The NATS `watch` iterator itself is represented by the
feed of `KvEntry` values passed to `processEntries`. -/

/-- Source `config-engine.ts`, `interface ConfigurationEntry`. -/
structure ConfigurationEntry where
  value : JsValue
  revision : Nat
  timestamp : Int
deriving Repr

/-- Source `types.ts`, `interface ConfigChangeEvent`. -/
structure ConfigChangeEvent where
  key : String
  oldValue : JsValue
  newValue : JsValue
  timestamp : Int
deriving Repr

/-- Mutable fields of the `ConfigEngine` class. -/
structure EngineState where
  config : List (String × ConfigurationEntry)
  watchers : List (String × List Nat)
  active : Bool
  initialized : Bool
deriving Repr

/-- Outcome of invoking one listener callback: it can return normally, return
a promise that later rejects (an asynchronous rejection), or throw before
returning a promise (a synchronous throw). -/
inductive CallbackBehavior where
  | ret
  | asyncReject
  | syncThrow
deriving DecidableEq, Repr

/-- Operation tag of a NATS KV entry (`entry.operation`). -/
inductive KvOperation where
  | PUT
  | DEL
  | PURGE
deriving DecidableEq, Repr

/-- A feed / history entry as delivered by the store.  `payload = some v`
means `jsonCodec.decode(entry.value)` succeeds with `v`; `payload = none`
means the decode throws. -/
structure KvEntry where
  key : String
  operation : KvOperation
  payload : Option JsValue
  revision : Nat
  created : Int
deriving Repr

/-- Errors thrown by the engine: `new Error('ConfigEngine closed')`. -/
inductive EngineError where
  | closed
deriving DecidableEq, Repr

/-- Dispatch loop of `handleConfigChange`:
`Array.from(watchers).map(callback => callback(event).catch(console.error))`.
An asynchronous rejection is captured by the attached `.catch` and logged; a
synchronous throw propagates out of the `.map`, so subsequent callbacks never
run.  Returns the identities actually invoked (in registration order) and
whether a synchronous throw escaped. -/
def dispatch (beh : Nat → CallbackBehavior) : List Nat → List Nat × Bool
  | [] => ([], false)
  | c :: rest =>
    match beh c with
    | .syncThrow => ([c], true)
    | _ =>
      let r := dispatch beh rest
      (c :: r.1, r.2)

/-- Result of `handleConfigChange`: the updated state, the `ConfigChangeEvent`
constructed for the listeners (if any were looked up), the callbacks invoked
with it, and whether a synchronous throw escaped. -/
structure HandleResult where
  state : EngineState
  event : Option ConfigChangeEvent
  invoked : List Nat
  threw : Bool
deriving Repr

/-- Source `config-engine.ts`, `handleConfigChange`: discard the entry when a
cached entry exists with `revision >= configEntry.revision`; otherwise store
the entry in the cache and, if a watcher set is registered for the key, build
the change event and dispatch it to a point-in-time copy of the set. -/
def ConfigEngine.handleConfigChange (beh : Nat → CallbackBehavior) (st : EngineState)
    (key : String) (configEntry : ConfigurationEntry) : HandleResult :=
  let oldValue := mapGet st.config key
  if (oldValue.map (fun o => decide (o.revision ≥ configEntry.revision))).getD false then
    ⟨st, none, [], false⟩
  else
    let st1 : EngineState := { st with config := mapSet st.config key configEntry }
    match mapGet st.watchers key with
    | none => ⟨st1, none, [], false⟩
    | some watchers =>
      let event : ConfigChangeEvent :=
        { key := key
          oldValue := (oldValue.map (fun o => o.value)).getD JsValue.undef
          newValue := configEntry.value
          timestamp := configEntry.timestamp }
      let d := dispatch beh watchers
      ⟨st1, some event, d.1, d.2⟩

/-- Source `config-engine.ts`, `processEntry`: inside a `try` block, decode the
payload (`undefined` unless the operation is `'PUT'`) and call
`handleConfigChange`; any error — a decode failure or a synchronous listener
throw — is caught and logged, so only the state update and the invocations
that already happened survive. -/
def ConfigEngine.processEntry (beh : Nat → CallbackBehavior) (st : EngineState)
    (entry : KvEntry) : EngineState × List Nat :=
  match entry.operation, entry.payload with
  | .PUT, none => (st, [])
  | .PUT, some v =>
    let r := ConfigEngine.handleConfigChange beh st entry.key
      ⟨v, entry.revision, entry.created⟩
    (r.state, r.invoked)
  | _, _ =>
    let r := ConfigEngine.handleConfigChange beh st entry.key
      ⟨JsValue.undef, entry.revision, entry.created⟩
    (r.state, r.invoked)

/-- Feed-consumption loop set up in `initialize`: for each delivered entry,
first check `if (this.initialized && !this.active) throw` (which ends the
loop), then run `processEntry`.  Returns the final state and, per processed
entry, the listener identities invoked for it. -/
def ConfigEngine.processEntries (beh : Nat → CallbackBehavior) (st : EngineState) :
    List KvEntry → EngineState × List (List Nat)
  | [] => (st, [])
  | e :: rest =>
    if st.initialized && !st.active then (st, [])
    else
      let r := ConfigEngine.processEntry beh st e
      let r2 := ConfigEngine.processEntries beh r.1 rest
      (r2.1, r.2 :: r2.2)

/-- Source `config-engine.ts`, `checkActive`: throw `'ConfigEngine closed'`
unless `this.active`. -/
def ConfigEngine.checkActive (st : EngineState) : Except EngineError Unit :=
  if st.active then .ok () else .error .closed

/-- Source `config-engine.ts`, `keyFor`. -/
def ConfigEngine.keyFor (ns : String) (path : String) : String :=
  namespacedKey ns path

/-- Source `config-engine.ts`, `get`: `checkActive`, then return the cached
entry value (`entry?.value`, i.e. `undefined` when the key was never cached). -/
def ConfigEngine.get (ns : String) (st : EngineState) (path : String) :
    Except EngineError JsValue := do
  ConfigEngine.checkActive st
  let entry := mapGet st.config (ConfigEngine.keyFor ns path)
  pure ((entry.map (fun e => e.value)).getD JsValue.undef)

/-- Source `config-engine.ts`, `addListener`: `checkActive`, add the callback
to the (possibly fresh) set for the key, store the set back in the registry,
and return `this.get(path)`. -/
def ConfigEngine.addListener (ns : String) (st : EngineState) (path : String)
    (cb : Nat) : Except EngineError (EngineState × JsValue) := do
  ConfigEngine.checkActive st
  let key := ConfigEngine.keyFor ns path
  let callbacks := setAdd ((mapGet st.watchers key).getD []) cb
  let st1 : EngineState := { st with watchers := mapSet st.watchers key callbacks }
  let v ← ConfigEngine.get ns st1 path
  pure (st1, v)

/-- Source `config-engine.ts`, `removeListener`: look up the key's watcher set
and delete the callback from it if the set exists.  There is no `checkActive`
call; the method never throws. -/
def ConfigEngine.removeListener (ns : String) (st : EngineState) (path : String)
    (cb : Nat) : Except EngineError EngineState :=
  let key := ConfigEngine.keyFor ns path
  match mapGet st.watchers key with
  | some watchers =>
    .ok { st with watchers := mapSet st.watchers key (watchers.filter (fun c => c != cb)) }
  | none => .ok st

/-- Source `config-engine.ts`, `close`: stop the watch iterator, set
`active = false` and clear the watcher registry.  The `config` map is not
touched. -/
def ConfigEngine.close (st : EngineState) : EngineState :=
  { st with active := false, watchers := [] }

/-- Field values of a freshly constructed `ConfigEngine` (the class-field
initializers), before `initialize` resolves. -/
def ConfigEngine.initialState : EngineState :=
  { config := [], watchers := [], active := false, initialized := false }

/-! ## The `ConfigEngineManager` writer (`src/config-engine-manager.ts`)

The underlying KV store is modelled by its current-value view (an association
list from physical key to value) together with the log of issued operations;
`history` is modelled as a function of the entry feed the store delivers for
the requested key. -/

/-- A store-level operation issued by the writer. -/
inductive StoreOp where
  | put (key : String) (value : JsValue)
  | del (key : String)
deriving Repr

/-- Effect of `kv.put` on the current-value view of the store. -/
def kvPut (store : List (String × JsValue)) (key : String) (v : JsValue) :
    List (String × JsValue) :=
  mapSet store key v

/-- Effect of `kv.delete` on the current-value view of the store (the key no
longer resolves to a value). -/
def kvDelete (store : List (String × JsValue)) (key : String) :
    List (String × JsValue) :=
  store.filter (fun p => !(p.1 == key))

/-- Source `config-engine-manager.ts`, `set`: namespace the path, then
`kv.delete` if the value is `undefined`, else `kv.put` with the encoded value.
Returns the new store view and the operation issued. -/
def ConfigEngineManager.set (ns : String) (store : List (String × JsValue))
    (path : String) (value : JsValue) : List (String × JsValue) × StoreOp :=
  let key := namespacedKey ns path
  match value with
  | .undef => (kvDelete store key, .del key)
  | v => (kvPut store key v, .put key v)

/-- Source `config-engine-manager.ts`, `patch` (post-connect loop): iterate
`getConfigKeysAndValues(patch)` in order and `set` each `(key, value)` leaf.
Returns the final store view and the ordered list of operations issued. -/
def ConfigEngineManager.patch (ns : String) (store : List (String × JsValue))
    (patchTree : JsValue) : List (String × JsValue) × List StoreOp :=
  (getConfigKeysAndValues patchTree).foldl
    (fun acc kv =>
      let r := ConfigEngineManager.set ns acc.1 kv.1 kv.2
      (r.1, acc.2 ++ [r.2]))
    (store, [])

/-- Source `config-engine-manager.ts`, `ConfigHistoryEntry` (from `types.ts`). -/
structure ConfigHistoryEntry where
  value : JsValue
  timestamp : Int
deriving Repr

/-- Decoded value of one history entry:
`entry.operation === 'PUT' ? jsonCodec.decode(entry.value) : undefined`;
`none` when the decode throws (which rejects the whole `history` call). -/
def decodeHistoryValue (e : KvEntry) : Option JsValue :=
  match e.operation, e.payload with
  | .PUT, some v => some v
  | .PUT, none => none
  | _, _ => some JsValue.undef

/-- Total variant of the entry decoding, used to state what `history` returns
when every delivered entry decodes. -/
def decodeHistoryEntry (e : KvEntry) : ConfigHistoryEntry :=
  { value :=
      match e.operation, e.payload with
      | .PUT, some v => v
      | _, _ => JsValue.undef
    timestamp := e.created }

/-- Accumulation loop of `history`: decode each delivered entry in order into
`{value, timestamp: entry.created.getTime()}`; a decode failure aborts the
call. -/
def decodeHistoryEntries : List KvEntry → Option (List ConfigHistoryEntry)
  | [] => some []
  | e :: rest =>
    match decodeHistoryValue e, decodeHistoryEntries rest with
    | some v, some tail => some (⟨v, e.created⟩ :: tail)
    | _, _ => none

/-- One step of a stable sort by ascending timestamp (the comparator
`(a, b) => a.timestamp - b.timestamp`; JavaScript `Array.prototype.sort` is
stable). -/
def insertByTimestamp (e : ConfigHistoryEntry) :
    List ConfigHistoryEntry → List ConfigHistoryEntry
  | [] => [e]
  | x :: xs =>
    if e.timestamp ≤ x.timestamp then e :: x :: xs else x :: insertByTimestamp e xs

/-- Stable sort by ascending timestamp, modelling
`values.sort((a, b) => a.timestamp - b.timestamp)`. -/
def sortByTimestamp : List ConfigHistoryEntry → List ConfigHistoryEntry
  | [] => []
  | x :: xs => insertByTimestamp x (sortByTimestamp xs)

/-- Source `config-engine-manager.ts`, `history`: decode the store's delivered
per-key entries in delivery order, then sort ascending by creation timestamp. -/
def ConfigEngineManager.history (delivered : List KvEntry) :
    Option (List ConfigHistoryEntry) :=
  (decodeHistoryEntries delivered).map sortByTimestamp

/-! ## Reconciliation properties -/

/-- Acceptance condition of the reconciler, read off the guard in
`handleConfigChange`: accept iff no cached entry exists for the key or the
cached revision is strictly below the incoming one. -/
def acceptsEntry (st : EngineState) (key : String) (ce : ConfigurationEntry) : Bool :=
  match mapGet st.config key with
  | some old => decide (old.revision < ce.revision)
  | none => true

theorem handleConfigChange_rejected (beh : Nat → CallbackBehavior) (st : EngineState)
    (key : String) (ce : ConfigurationEntry) (h : acceptsEntry st key ce = false) :
    ConfigEngine.handleConfigChange beh st key ce = ⟨st, none, [], false⟩ := by
  cases hmg : mapGet st.config key with
  | none => simp [acceptsEntry, hmg] at h
  | some old =>
    have hge : ce.revision ≤ old.revision := by
      simp [acceptsEntry, hmg] at h
      omega
    cases hw : mapGet st.watchers key <;>
      simp [ConfigEngine.handleConfigChange, hmg, hw, hge]

theorem handleConfigChange_accepted_state (beh : Nat → CallbackBehavior) (st : EngineState)
    (key : String) (ce : ConfigurationEntry) (h : acceptsEntry st key ce = true) :
    (ConfigEngine.handleConfigChange beh st key ce).state =
      { st with config := mapSet st.config key ce } := by
  cases hmg : mapGet st.config key with
  | none =>
    cases hw : mapGet st.watchers key <;>
      simp [ConfigEngine.handleConfigChange, hmg, hw]
  | some old =>
    have hlt : old.revision < ce.revision := by
      simpa [acceptsEntry, hmg] using h
    have hcond : ¬ ce.revision ≤ old.revision := by omega
    cases hw : mapGet st.watchers key <;>
      simp [ConfigEngine.handleConfigChange, hmg, hw, hcond]

theorem handleConfigChange_accepted_invoked (beh : Nat → CallbackBehavior) (st : EngineState)
    (key : String) (ce : ConfigurationEntry) (h : acceptsEntry st key ce = true) :
    (ConfigEngine.handleConfigChange beh st key ce).invoked =
      (dispatch beh ((mapGet st.watchers key).getD [])).1 := by
  cases hmg : mapGet st.config key with
  | none =>
    cases hw : mapGet st.watchers key <;>
      simp [ConfigEngine.handleConfigChange, hmg, hw, dispatch]
  | some old =>
    have hlt : old.revision < ce.revision := by
      simpa [acceptsEntry, hmg] using h
    have hcond : ¬ ce.revision ≤ old.revision := by omega
    cases hw : mapGet st.watchers key <;>
      simp [ConfigEngine.handleConfigChange, hmg, hw, hcond, dispatch]

theorem handleConfigChange_accepted_event (beh : Nat → CallbackBehavior) (st : EngineState)
    (key : String) (ce : ConfigurationEntry) (cbs : List Nat)
    (h : acceptsEntry st key ce = true) (hw : mapGet st.watchers key = some cbs) :
    (ConfigEngine.handleConfigChange beh st key ce).event =
      some { key := key
             oldValue := ((mapGet st.config key).map (fun o => o.value)).getD JsValue.undef
             newValue := ce.value
             timestamp := ce.timestamp } := by
  cases hmg : mapGet st.config key with
  | none => simp [ConfigEngine.handleConfigChange, hmg, hw]
  | some old =>
    have hlt : old.revision < ce.revision := by
      simpa [acceptsEntry, hmg] using h
    have hcond : ¬ ce.revision ≤ old.revision := by omega
    simp [ConfigEngine.handleConfigChange, hmg, hw, hcond]

theorem handleConfigChange_flags (beh : Nat → CallbackBehavior) (st : EngineState)
    (key : String) (ce : ConfigurationEntry) :
    (ConfigEngine.handleConfigChange beh st key ce).state.active = st.active ∧
    (ConfigEngine.handleConfigChange beh st key ce).state.initialized = st.initialized ∧
    (ConfigEngine.handleConfigChange beh st key ce).state.watchers = st.watchers := by
  by_cases hc : acceptsEntry st key ce = true
  · rw [handleConfigChange_accepted_state beh st key ce hc]
    exact ⟨rfl, rfl, rfl⟩
  · rw [handleConfigChange_rejected beh st key ce (by simpa using hc)]
    exact ⟨rfl, rfl, rfl⟩

theorem processEntry_flags (beh : Nat → CallbackBehavior) (st : EngineState) (e : KvEntry) :
    (ConfigEngine.processEntry beh st e).1.active = st.active ∧
    (ConfigEngine.processEntry beh st e).1.initialized = st.initialized ∧
    (ConfigEngine.processEntry beh st e).1.watchers = st.watchers := by
  unfold ConfigEngine.processEntry
  cases hop : e.operation <;> cases hpl : e.payload <;>
    first
      | exact ⟨rfl, rfl, rfl⟩
      | exact handleConfigChange_flags beh st e.key _

theorem processEntry_put (beh : Nat → CallbackBehavior) (st : EngineState) (e : KvEntry)
    (v : JsValue) (hop : e.operation = KvOperation.PUT) (hpl : e.payload = some v) :
    ConfigEngine.processEntry beh st e =
      ((ConfigEngine.handleConfigChange beh st e.key ⟨v, e.revision, e.created⟩).state,
       (ConfigEngine.handleConfigChange beh st e.key ⟨v, e.revision, e.created⟩).invoked) := by
  unfold ConfigEngine.processEntry
  rw [hop, hpl]

theorem processEntries_nil (beh : Nat → CallbackBehavior) (st : EngineState) :
    ConfigEngine.processEntries beh st [] = (st, []) := rfl

theorem processEntries_cons (beh : Nat → CallbackBehavior) (st : EngineState)
    (e : KvEntry) (rest : List KvEntry) (h : (st.initialized && !st.active) = false) :
    ConfigEngine.processEntries beh st (e :: rest) =
      ((ConfigEngine.processEntries beh (ConfigEngine.processEntry beh st e).1 rest).1,
       (ConfigEngine.processEntry beh st e).2 ::
         (ConfigEngine.processEntries beh (ConfigEngine.processEntry beh st e).1 rest).2) := by
  conv_lhs => rw [ConfigEngine.processEntries]
  rw [h]
  rfl

/-- C1: for every feed entry handled by the reconciler, the snapshot cache is
updated and the registered listeners for the key are dispatched iff the
entry's revision is strictly greater than the cached revision for that key (or
no cached entry exists); otherwise the entry is discarded and the state,
event and invocations are unchanged.  Consequently, for two writes to one key
at revisions `r1 < r2`, delivering `r2` before `r1` leaves the cache at `r2`'s
value. -/
theorem reconciler_revision_gate (beh : Nat → CallbackBehavior) (st : EngineState)
    (key : String) (ce : ConfigurationEntry) :
    (acceptsEntry st key ce = true →
      (ConfigEngine.handleConfigChange beh st key ce).state =
        { st with config := mapSet st.config key ce } ∧
      (ConfigEngine.handleConfigChange beh st key ce).invoked =
        (dispatch beh ((mapGet st.watchers key).getD [])).1) ∧
    (acceptsEntry st key ce = false →
      ConfigEngine.handleConfigChange beh st key ce = ⟨st, none, [], false⟩) ∧
    (∀ (k : String) (e1 e2 : KvEntry) (v1 v2 : JsValue),
      e1.key = k → e2.key = k →
      e1.operation = KvOperation.PUT → e2.operation = KvOperation.PUT →
      e1.payload = some v1 → e2.payload = some v2 →
      e1.revision < e2.revision →
      mapGet st.config k = none →
      st.active = true → st.initialized = true →
      mapGet ((ConfigEngine.processEntries beh st [e2, e1]).1.config) k =
        some ⟨v2, e2.revision, e2.created⟩) := by
  refine ⟨?_, ?_, ?_⟩
  · intro h
    exact ⟨handleConfigChange_accepted_state beh st key ce h,
           handleConfigChange_accepted_invoked beh st key ce h⟩
  · intro h
    exact handleConfigChange_rejected beh st key ce h
  · intro k e1 e2 v1 v2 hk1 hk2 hop1 hop2 hpl1 hpl2 hrev hnone hact hini
    have hguard : (st.initialized && !st.active) = false := by
      rw [hact, hini]; rfl
    -- first iteration: e2 is accepted into the empty slot
    have hacc2 : acceptsEntry st k ⟨v2, e2.revision, e2.created⟩ = true := by
      simp [acceptsEntry, hnone]
    have hstep2 : (ConfigEngine.processEntry beh st e2).1 =
        { st with config := mapSet st.config k ⟨v2, e2.revision, e2.created⟩ } := by
      unfold ConfigEngine.processEntry
      rw [hop2, hpl2, hk2]
      exact handleConfigChange_accepted_state beh st k _ hacc2
    set st1 : EngineState :=
      { st with config := mapSet st.config k ⟨v2, e2.revision, e2.created⟩ } with hst1
    -- second iteration: e1 is rejected against the cached revision r2
    have hmg1 : mapGet st1.config k = some ⟨v2, e2.revision, e2.created⟩ :=
      mapGet_mapSet_self st.config k _
    have hrej1 : acceptsEntry st1 k ⟨v1, e1.revision, e1.created⟩ = false := by
      simp [acceptsEntry, hmg1]
      omega
    have hstep1 : (ConfigEngine.processEntry beh st1 e1).1 = st1 := by
      rw [processEntry_put beh st1 e1 v1 hop1 hpl1, hk1]
      rw [handleConfigChange_rejected beh st1 k ⟨v1, e1.revision, e1.created⟩ hrej1]
    have hguard1 : (st1.initialized && !st1.active) = false := by
      rw [hst1]; exact hguard
    rw [processEntries_cons beh st e2 [e1] hguard, hstep2,
        processEntries_cons beh st1 e1 [] hguard1, hstep1, processEntries_nil]
    exact hmg1

/-- Witness for C1: concrete runs exercising the accept branch, the discard
branch, and the reorder law. -/
theorem reconciler_revision_gate_witness :
    mapGet ((ConfigEngine.processEntries (fun _ => CallbackBehavior.ret)
        ⟨[], [], true, true⟩
        [⟨"t.a", .PUT, some (.str "v2"), 2, 20⟩,
         ⟨"t.a", .PUT, some (.str "v1"), 1, 10⟩]).1.config) "t.a" =
      some ⟨.str "v2", 2, 20⟩ :=
  (reconciler_revision_gate (fun _ => CallbackBehavior.ret) ⟨[], [], true, true⟩
      "t.a" ⟨.str "v2", 2, 20⟩).2.2 "t.a"
    ⟨"t.a", .PUT, some (.str "v1"), 1, 10⟩
    ⟨"t.a", .PUT, some (.str "v2"), 2, 20⟩
    (.str "v1") (.str "v2") rfl rfl rfl rfl rfl rfl (by decide) rfl rfl rfl

/-! ## Schema validation, lifecycle and closed-state behaviour -/

/-- Modelled from the spec: the runtime schema descriptor of §9 — the set of
flattened paths a configuration schema declares.  The TypeScript source has no
such runtime artefact (path validity is enforced only by the compile-time
types), so a concrete example descriptor is declared here purely to express
claims that mention schema-unknown paths. -/
def specSchemaDescriptor : List String :=
  ["requiredString", "requiredNumber", "requiredBoolean"]

/-- Counterexample for C2: `get` performs no runtime path validation.  On an
active engine, a path that is unknown to the schema descriptor does not fail
fast: `get` returns the absent marker exactly as it would for a known path
that was never written. -/
theorem get_unknown_path_counterexample :
    "unknownPath" ∉ specSchemaDescriptor ∧
    ConfigEngine.get "t" ⟨[], [], true, true⟩ "unknownPath" =
      Except.ok JsValue.undef := by
  exact ⟨by decide, rfl⟩

/-- C2 (amended): `get` performs no runtime validation of the path against a
schema descriptor — path validity is enforced only at compile time.  For every
path whatsoever (schema-known or not), `get` on an active mirror returns the
absent/undefined marker without throwing when the key was never written. -/
theorem get_never_written_returns_absent (ns path : String) (st : EngineState)
    (hact : st.active = true)
    (hnone : mapGet st.config (ConfigEngine.keyFor ns path) = none) :
    ConfigEngine.get ns st path = Except.ok JsValue.undef := by
  simp [ConfigEngine.get, ConfigEngine.checkActive, hact, hnone]

/-- Witness for C2's amended theorem at a concrete engine state and path. -/
theorem get_never_written_returns_absent_witness :
    ConfigEngine.get "t" ⟨[], [], true, true⟩ "nosuch" = Except.ok JsValue.undef :=
  get_never_written_returns_absent "t" "nosuch" ⟨[], [], true, true⟩ rfl rfl

/-- Counterexample for C7: `close` clears the listener registry but does not
clear the snapshot cache — the in-memory key-to-value map still holds its
entries in the closed state. -/
theorem close_retains_cache_counterexample :
    (ConfigEngine.close
        ⟨[("t.a", ⟨.str "v", 1, 0⟩)], [("t.a", [0])], true, true⟩).watchers = [] ∧
    (ConfigEngine.close
        ⟨[("t.a", ⟨.str "v", 1, 0⟩)], [("t.a", [0])], true, true⟩).config ≠ [] := by
  exact ⟨rfl, by simp [ConfigEngine.close]⟩

/-- C7 (amended): after `close`, the listener registry is cleared and the
mirror is inactive, but the snapshot cache map is left exactly as it was
(merely unreachable, since `get` then fails with the closed error). -/
theorem close_clears_registry_only (st : EngineState) :
    (ConfigEngine.close st).watchers = [] ∧
    (ConfigEngine.close st).config = st.config ∧
    (ConfigEngine.close st).active = false :=
  ⟨rfl, rfl, rfl⟩

/-- C9: `get` and `addListener` on a non-active mirror — closed, or not yet
opened — fail with the closed error; `close` makes the mirror non-active and
a freshly constructed (pre-open) engine is non-active. -/
theorem get_addListener_closed_error (ns path : String) (cb : Nat) (st : EngineState)
    (h : st.active = false) :
    ConfigEngine.get ns st path = Except.error EngineError.closed ∧
    ConfigEngine.addListener ns st path cb = Except.error EngineError.closed ∧
    (ConfigEngine.close st).active = false ∧
    ConfigEngine.initialState.active = false := by
  refine ⟨?_, ?_, rfl, rfl⟩
  · simp [ConfigEngine.get, ConfigEngine.checkActive, h]
  · simp [ConfigEngine.addListener, ConfigEngine.checkActive, h, Bind.bind, Except.bind]

/-- Witness for C9 at a concrete closed engine state. -/
theorem get_addListener_closed_error_witness :
    ConfigEngine.get "t" ⟨[], [], false, true⟩ "a" = Except.error EngineError.closed ∧
    ConfigEngine.addListener "t" ⟨[], [], false, true⟩ "a" 0 =
      Except.error EngineError.closed :=
  ⟨(get_addListener_closed_error "t" "a" 0 ⟨[], [], false, true⟩ rfl).1,
   (get_addListener_closed_error "t" "a" 0 ⟨[], [], false, true⟩ rfl).2.1⟩

/-- C10: unlike `get` and `addListener`, `removeListener` performs no
closed-state check.  It returns normally on every state — in particular, after
`close` it succeeds and is a no-op, because `close` cleared the registry. -/
theorem removeListener_after_close (ns path : String) (cb : Nat) (st : EngineState) :
    ConfigEngine.removeListener ns (ConfigEngine.close st) path cb =
      Except.ok (ConfigEngine.close st) ∧
    (∀ st2 : EngineState, ∃ st3, ConfigEngine.removeListener ns st2 path cb = Except.ok st3) := by
  constructor
  · rfl
  · intro st2
    cases h : mapGet st2.watchers (ConfigEngine.keyFor ns path) with
    | none => exact ⟨st2, by simp [ConfigEngine.removeListener, h]⟩
    | some watchers =>
      simp only [ConfigEngine.removeListener, h]
      exact ⟨_, rfl⟩

/-! ## Patch applier and writer properties -/

/-- C5: evaluating the patch flattener on an array-valued leaf.  JavaScript
arrays satisfy `typeof value === 'object' && value !== null`, so
`getConfigKeysAndValues` recurses into the array via `Object.entries` and
emits one leaf per index — it does not treat the array as a single leaf value.
This contradicts the documented schema support for arrays of primitives
(and is inconsistent with `set`, which stores a whole array under the key). -/
theorem flatten_recurses_into_arrays :
    getConfigKeysAndValues (.obj [("stringArray", .arr [.str "arr1", .str "arr2"])]) =
      [("stringArray.0", .str "arr1"), ("stringArray.1", .str "arr2")] := by
  simp [getConfigKeysAndValues, flattenFields, flattenElems, flattenEntry, isObjectNonNull]
  decide

theorem mapGet_kvDelete_self (store : List (String × JsValue)) (k : String) :
    mapGet (kvDelete store k) k = none := by
  unfold mapGet kvDelete
  have : List.find? (fun p => p.1 == k) (store.filter (fun p => !(p.1 == k))) = none := by
    rw [List.find?_eq_none]
    intro x hx
    rcases List.mem_filter.mp hx with ⟨-, hpx⟩
    intro hxk
    rw [hxk] at hpx
    simp at hpx
  rw [this]
  rfl

theorem mapGet_kvDelete_ne (store : List (String × JsValue)) (k k' : String)
    (h : k' ≠ k) : mapGet (kvDelete store k) k' = mapGet store k' := by
  unfold mapGet kvDelete
  induction store with
  | nil => rfl
  | cons p rest ih =>
    by_cases hp : (p.1 == k) = true
    · have hpk : p.1 = k := by simpa using hp
      have hp' : (p.1 == k') = false := by
        rw [hpk]
        simp only [beq_eq_false_iff_ne]
        exact fun hkk => h hkk.symm
      rw [List.filter_cons_of_neg (by simp [hp]), List.find?_cons_of_neg _ (by simp [hp'])]
      exact ih
    · have hp2 : (p.1 == k) = false := by simpa using hp
      rw [List.filter_cons_of_pos (by simp [hp2])]
      by_cases hq : (p.1 == k') = true
      · rw [List.find?_cons_of_pos _ (by simp [hq]), List.find?_cons_of_pos _ (by simp [hq])]
      · rw [List.find?_cons_of_neg _ (by simpa using hq),
            List.find?_cons_of_neg _ (by simpa using hq)]
        exact ih

/-- Operation issued by `set` for a given leaf value (independent of the store
state): a delete for the absent marker, a put otherwise. -/
def ConfigEngineManager.setOp (ns path : String) (v : JsValue) : StoreOp :=
  match v with
  | .undef => .del (namespacedKey ns path)
  | v => .put (namespacedKey ns path) v

theorem set_snd (ns : String) (store : List (String × JsValue)) (path : String)
    (v : JsValue) :
    (ConfigEngineManager.set ns store path v).2 = ConfigEngineManager.setOp ns path v := by
  cases v <;> rfl

theorem set_frame (ns : String) (store : List (String × JsValue)) (path : String)
    (v : JsValue) (k : String) (h : namespacedKey ns path ≠ k) :
    mapGet (ConfigEngineManager.set ns store path v).1 k = mapGet store k := by
  cases v
  case undef => exact mapGet_kvDelete_ne store (namespacedKey ns path) k (fun hk => h hk.symm)
  all_goals exact mapGet_mapSet_ne store (namespacedKey ns path) k _ (fun hk => h hk.symm)

theorem patchFold_ops (ns : String) (leaves : List (String × JsValue))
    (store : List (String × JsValue)) (acc : List StoreOp) :
    (leaves.foldl
      (fun acc kv =>
        let r := ConfigEngineManager.set ns acc.1 kv.1 kv.2
        (r.1, acc.2 ++ [r.2]))
      (store, acc)).2 =
      acc ++ leaves.map (fun kv => ConfigEngineManager.setOp ns kv.1 kv.2) := by
  induction leaves generalizing store acc with
  | nil => simp
  | cons kv rest ih =>
    simp only [List.foldl_cons, List.map_cons]
    rw [ih (ConfigEngineManager.set ns store kv.1 kv.2).1
          (acc ++ [(ConfigEngineManager.set ns store kv.1 kv.2).2])]
    rw [set_snd]
    simp

theorem patchFold_frame (ns : String) (leaves : List (String × JsValue))
    (store : List (String × JsValue)) (acc : List StoreOp) (k : String)
    (h : ∀ kv ∈ leaves, namespacedKey ns kv.1 ≠ k) :
    mapGet
      (leaves.foldl
        (fun acc kv =>
          let r := ConfigEngineManager.set ns acc.1 kv.1 kv.2
          (r.1, acc.2 ++ [r.2]))
        (store, acc)).1 k = mapGet store k := by
  induction leaves generalizing store acc with
  | nil => rfl
  | cons kv rest ih =>
    simp only [List.foldl_cons]
    have hrest : ∀ kv2 ∈ rest, namespacedKey ns kv2.1 ≠ k :=
      fun kv2 hm => h kv2 (List.mem_cons_of_mem kv hm)
    have hstep := ih (ConfigEngineManager.set ns store kv.1 kv.2).1
      (acc ++ [(ConfigEngineManager.set ns store kv.1 kv.2).2]) hrest
    exact hstep.trans (set_frame ns store kv.1 kv.2 k (h kv (List.mem_cons_self kv rest)))

/-- C4: `patch` applies exactly the leaves supplied by the flattener, in
flattened order — the operation log is the flatten list mapped to its store
operation, a leaf set to the absent marker issuing a store delete.  Every key
not named by the patch keeps exactly the value it had, and a patch whose only
leaf is an absent marker removes that key from the store view. -/
theorem patch_applies_only_supplied_leaves (ns : String)
    (store : List (String × JsValue)) (patchTree : JsValue) :
    ((ConfigEngineManager.patch ns store patchTree).2 =
      (getConfigKeysAndValues patchTree).map
        (fun kv => ConfigEngineManager.setOp ns kv.1 kv.2)) ∧
    (∀ k : String,
      (∀ kv ∈ getConfigKeysAndValues patchTree, namespacedKey ns kv.1 ≠ k) →
      mapGet (ConfigEngineManager.patch ns store patchTree).1 k = mapGet store k) ∧
    (∀ p : String, getConfigKeysAndValues patchTree = [(p, JsValue.undef)] →
      mapGet (ConfigEngineManager.patch ns store patchTree).1 (namespacedKey ns p) = none) := by
  refine ⟨?_, ?_, ?_⟩
  · unfold ConfigEngineManager.patch
    simpa using patchFold_ops ns (getConfigKeysAndValues patchTree) store []
  · intro k h
    unfold ConfigEngineManager.patch
    exact patchFold_frame ns (getConfigKeysAndValues patchTree) store [] k h
  · intro p hflat
    unfold ConfigEngineManager.patch
    rw [hflat]
    exact mapGet_kvDelete_self store (namespacedKey ns p)

/-- Witness for C4: patching `{a: absent}` over a store holding `t.a` and
`t.b` deletes `t.a`, leaves `t.b` untouched, and issues exactly one delete. -/
theorem patch_applies_only_supplied_leaves_witness :
    mapGet (ConfigEngineManager.patch "t" [("t.a", .num 5), ("t.b", .str "keep")]
        (.obj [("a", JsValue.undef)])).1 "t.b" = some (.str "keep") ∧
    mapGet (ConfigEngineManager.patch "t" [("t.a", .num 5), ("t.b", .str "keep")]
        (.obj [("a", JsValue.undef)])).1 "t.a" = none := by
  have h := patch_applies_only_supplied_leaves "t"
    [("t.a", .num 5), ("t.b", .str "keep")] (.obj [("a", JsValue.undef)])
  have hflat : getConfigKeysAndValues (.obj [("a", JsValue.undef)]) =
      [("a", JsValue.undef)] := by
    simp [getConfigKeysAndValues, flattenFields, flattenEntry, isObjectNonNull]
  constructor
  · exact (h.2.1 "t.b" (by rw [hflat]; decide)).trans rfl
  · exact h.2.2 "a" hflat

/-! ## Listener registration properties -/

theorem overwrite_id {α : Type} (m : List (String × α)) (k : String) (v : α)
    (h : m.any (fun p => p.1 == k) = false) :
    m.map (fun p => if p.1 == k then (k, v) else p) = m := by
  induction m with
  | nil => rfl
  | cons p rest ih =>
    rw [List.any_cons, Bool.or_eq_false_iff] at h
    simp only [List.map_cons, h.1, Bool.false_eq_true, if_false]
    rw [ih h.2]

theorem any_map_overwrite {α : Type} (m : List (String × α)) (k : String) (v : α) :
    (m.map (fun p => if p.1 == k then (k, v) else p)).any (fun p => p.1 == k) =
      m.any (fun p => p.1 == k) := by
  induction m with
  | nil => rfl
  | cons p rest ih =>
    by_cases hp : (p.1 == k) = true
    · rw [List.map_cons, List.any_cons, List.any_cons, ih]
      congr 1
      rw [if_pos (by simpa using hp)]
      simp [hp]
    · rw [List.map_cons, List.any_cons, List.any_cons, ih]
      congr 1
      rw [if_neg (by simpa using hp)]

theorem mapSet_mapSet {α : Type} (m : List (String × α)) (k : String) (v v' : α) :
    mapSet (mapSet m k v) k v' = mapSet m k v' := by
  by_cases h : m.any (fun p => p.1 == k) = true
  · unfold mapSet
    rw [if_pos h]
    rw [if_pos (by rw [any_map_overwrite]; exact h), if_pos h]
    rw [List.map_map]
    apply List.map_congr_left
    intro p hp
    by_cases hpk : (p.1 == k) = true
    · simp [Function.comp, hpk]
    · have hpk2 : (p.1 == k) = false := by
        cases hh : (p.1 == k) with
        | false => rfl
        | true => exact absurd hh hpk
      simp [Function.comp, hpk2]
  · have h2 : m.any (fun p => p.1 == k) = false := by
      cases hh : m.any (fun p => p.1 == k) with
      | false => rfl
      | true => exact absurd hh h
    unfold mapSet
    rw [if_neg h, if_neg h]
    have hany : ((m ++ [(k, v)]).any (fun p => p.1 == k)) = true := by
      rw [List.any_append]
      simp
    rw [if_pos hany, List.map_append, overwrite_id m k v' h2]
    simp

theorem dispatch_singleton (beh : Nat → CallbackBehavior) (c : Nat) :
    (dispatch beh [c]).1 = [c] := by
  unfold dispatch
  cases beh c <;> rfl

/-- C8: `addListener` is idempotent by callback identity — registering the
same callback twice on a key with no prior watcher set produces exactly the
state produced by registering it once, and both calls return the value cached
at registration time (the absent marker when the key was never set, since the
returned value is the cached lookup's value).  A subsequent accepted change on
that key then invokes the callback exactly once. -/
theorem addListener_idempotent (beh : Nat → CallbackBehavior) (ns path : String)
    (st : EngineState) (cb : Nat) (ce : ConfigurationEntry)
    (hact : st.active = true)
    (hw : mapGet st.watchers (ConfigEngine.keyFor ns path) = none) :
    ConfigEngine.addListener ns st path cb =
      Except.ok
        ({ st with watchers := mapSet st.watchers (ConfigEngine.keyFor ns path) [cb] },
         ((mapGet st.config (ConfigEngine.keyFor ns path)).map
           (fun e => e.value)).getD JsValue.undef) ∧
    ConfigEngine.addListener ns
        { st with watchers := mapSet st.watchers (ConfigEngine.keyFor ns path) [cb] }
        path cb =
      Except.ok
        ({ st with watchers := mapSet st.watchers (ConfigEngine.keyFor ns path) [cb] },
         ((mapGet st.config (ConfigEngine.keyFor ns path)).map
           (fun e => e.value)).getD JsValue.undef) ∧
    (acceptsEntry
        { st with watchers := mapSet st.watchers (ConfigEngine.keyFor ns path) [cb] }
        (ConfigEngine.keyFor ns path) ce = true →
      (ConfigEngine.handleConfigChange beh
          { st with watchers := mapSet st.watchers (ConfigEngine.keyFor ns path) [cb] }
          (ConfigEngine.keyFor ns path) ce).invoked.count cb = 1) := by
  refine ⟨?_, ?_, ?_⟩
  · simp [ConfigEngine.addListener, ConfigEngine.get, ConfigEngine.checkActive,
      hact, hw, setAdd, Bind.bind, Except.bind, pure, Except.pure]
  · have hw1 : mapGet (mapSet st.watchers (ConfigEngine.keyFor ns path) [cb])
        (ConfigEngine.keyFor ns path) = some [cb] :=
      mapGet_mapSet_self st.watchers (ConfigEngine.keyFor ns path) [cb]
    simp only [ConfigEngine.addListener, ConfigEngine.get, ConfigEngine.checkActive,
      hact, hw1, Bind.bind, Except.bind, pure, Except.pure]
    simp [setAdd, mapSet_mapSet]
  · intro hacc
    rw [handleConfigChange_accepted_invoked beh _ _ _ hacc]
    rw [mapGet_mapSet_self st.watchers (ConfigEngine.keyFor ns path) [cb]]
    rw [Option.getD_some, dispatch_singleton]
    simp

/-- Witness for C8 at a concrete engine: double registration of callback `5`
on a never-set key returns the absent marker and yields one invocation for an
accepted change. -/
theorem addListener_idempotent_witness :
    ConfigEngine.addListener "t" ⟨[], [], true, true⟩ "a" 5 =
      Except.ok (⟨[], [("t.a", [5])], true, true⟩, JsValue.undef) ∧
    (ConfigEngine.handleConfigChange (fun _ => CallbackBehavior.ret)
        ⟨[], [("t.a", [5])], true, true⟩ "t.a" ⟨.str "x", 1, 0⟩).invoked.count 5 = 1 := by
  have h := addListener_idempotent (fun _ => CallbackBehavior.ret) "t" "a"
    ⟨[], [], true, true⟩ 5 ⟨.str "x", 1, 0⟩ rfl rfl
  exact ⟨h.1, h.2.2 rfl⟩

/-! ## Listener fault isolation -/

theorem dispatch_no_throw (beh : Nat → CallbackBehavior) (cbs : List Nat)
    (h : ∀ c ∈ cbs, beh c ≠ CallbackBehavior.syncThrow) :
    dispatch beh cbs = (cbs, false) := by
  induction cbs with
  | nil => rfl
  | cons c rest ih =>
    have hc := h c (List.mem_cons_self c rest)
    have hrest : ∀ x ∈ rest, beh x ≠ CallbackBehavior.syncThrow :=
      fun x hx => h x (List.mem_cons_of_mem c hx)
    unfold dispatch
    cases hbc : beh c with
    | syncThrow => exact absurd hbc hc
    | ret => rw [ih hrest]
    | asyncReject => rw [ih hrest]

theorem processEntries_length (beh : Nat → CallbackBehavior) (st : EngineState)
    (es : List KvEntry) (hact : st.active = true) :
    (ConfigEngine.processEntries beh st es).2.length = es.length := by
  induction es generalizing st with
  | nil => rfl
  | cons e rest ih =>
    have hguard : (st.initialized && !st.active) = false := by
      rw [hact]
      simp
    rw [processEntries_cons beh st e rest hguard]
    have hact1 : (ConfigEngine.processEntry beh st e).1.active = true := by
      rw [(processEntry_flags beh st e).1]
      exact hact
    simp [ih (ConfigEngine.processEntry beh st e).1 hact1]

/-- Counterexample for C3: with listeners `[0, 1]` registered for a key and
callback `0` throwing synchronously, an accepted change invokes only `[0]` —
the registered listener `1` is never invoked for that event, contradicting
the claim that every remaining listener still fires. -/
theorem listener_sync_throw_counterexample :
    1 ∈ (mapGet (⟨[], [("t.a", [0, 1])], true, true⟩ : EngineState).watchers "t.a").getD [] ∧
    (ConfigEngine.handleConfigChange
        (fun n => if n = 0 then CallbackBehavior.syncThrow else CallbackBehavior.ret)
        ⟨[], [("t.a", [0, 1])], true, true⟩ "t.a" ⟨.str "x", 1, 0⟩).invoked = [0] ∧
    1 ∉ (ConfigEngine.handleConfigChange
        (fun n => if n = 0 then CallbackBehavior.syncThrow else CallbackBehavior.ret)
        ⟨[], [("t.a", [0, 1])], true, true⟩ "t.a" ⟨.str "x", 1, 0⟩).invoked := by
  refine ⟨by decide, rfl, by decide⟩

/-- C3 (amended): an asynchronous rejection is caught by the `.catch` attached
to each callback and never suppresses other listeners: when no callback for
the key throws synchronously, an accepted change invokes every registered
listener, in registration order, and all receive the one event built for the
change.  A synchronous throw aborts the remaining listeners for that event,
but it is caught by `processEntry`, so the consumer still processes every
subsequent feed entry regardless of listener behaviour. -/
theorem listener_fault_isolation (beh : Nat → CallbackBehavior) (st : EngineState)
    (key : String) (ce : ConfigurationEntry) (cbs : List Nat) (es : List KvEntry)
    (hw : mapGet st.watchers key = some cbs)
    (hacc : acceptsEntry st key ce = true) :
    ((∀ c ∈ cbs, beh c ≠ CallbackBehavior.syncThrow) →
      (ConfigEngine.handleConfigChange beh st key ce).invoked = cbs) ∧
    (ConfigEngine.handleConfigChange beh st key ce).event =
      some { key := key
             oldValue := ((mapGet st.config key).map (fun o => o.value)).getD JsValue.undef
             newValue := ce.value
             timestamp := ce.timestamp } ∧
    (st.active = true → (ConfigEngine.processEntries beh st es).2.length = es.length) := by
  refine ⟨?_, ?_, ?_⟩
  · intro hnothrow
    rw [handleConfigChange_accepted_invoked beh st key ce hacc, hw, Option.getD_some,
        dispatch_no_throw beh cbs hnothrow]
  · exact handleConfigChange_accepted_event beh st key ce cbs hacc hw
  · intro hact
    exact processEntries_length beh st es hact

/-- Witness for C3's amended theorem: two non-throwing listeners both fire for
an accepted change, and a two-entry feed is processed entry by entry. -/
theorem listener_fault_isolation_witness :
    (ConfigEngine.handleConfigChange (fun _ => CallbackBehavior.ret)
        ⟨[], [("t.a", [0, 1])], true, true⟩ "t.a" ⟨.str "x", 1, 0⟩).invoked = [0, 1] ∧
    (ConfigEngine.processEntries (fun _ => CallbackBehavior.ret)
        ⟨[], [("t.a", [0, 1])], true, true⟩
        [⟨"t.a", .PUT, some (.str "x"), 1, 0⟩,
         ⟨"t.a", .PUT, some (.str "y"), 2, 1⟩]).2.length = 2 := by
  have h := listener_fault_isolation (fun _ => CallbackBehavior.ret)
    ⟨[], [("t.a", [0, 1])], true, true⟩ "t.a" ⟨.str "x", 1, 0⟩ [0, 1]
    [⟨"t.a", .PUT, some (.str "x"), 1, 0⟩, ⟨"t.a", .PUT, some (.str "y"), 2, 1⟩]
    rfl rfl
  exact ⟨h.1 (by decide), h.2.2 rfl⟩

/-! ## History ordering -/

theorem insertByTimestamp_perm (e : ConfigHistoryEntry) (l : List ConfigHistoryEntry) :
    List.Perm (insertByTimestamp e l) (e :: l) := by
  induction l with
  | nil => exact List.Perm.refl _
  | cons x xs ih =>
    unfold insertByTimestamp
    by_cases hc : e.timestamp ≤ x.timestamp
    · rw [if_pos hc]
    · rw [if_neg hc]
      exact (List.Perm.cons x ih).trans (List.Perm.swap e x xs)

theorem sortByTimestamp_perm (l : List ConfigHistoryEntry) :
    List.Perm (sortByTimestamp l) l := by
  induction l with
  | nil => exact List.Perm.refl _
  | cons x xs ih =>
    unfold sortByTimestamp
    exact (insertByTimestamp_perm x (sortByTimestamp xs)).trans (List.Perm.cons x ih)

theorem sorted_insertByTimestamp (e : ConfigHistoryEntry) (l : List ConfigHistoryEntry)
    (h : l.Sorted (fun a b => a.timestamp ≤ b.timestamp)) :
    (insertByTimestamp e l).Sorted (fun a b => a.timestamp ≤ b.timestamp) := by
  induction l with
  | nil => simp [insertByTimestamp]
  | cons x xs ih =>
    rw [List.sorted_cons] at h
    unfold insertByTimestamp
    by_cases hc : e.timestamp ≤ x.timestamp
    · rw [if_pos hc, List.sorted_cons]
      refine ⟨?_, List.sorted_cons.mpr h⟩
      intro b hb
      rcases List.mem_cons.mp hb with rfl | hb2
      · exact hc
      · exact le_trans hc (h.1 b hb2)
    · rw [if_neg hc, List.sorted_cons]
      refine ⟨?_, ih h.2⟩
      intro b hb
      rcases List.mem_cons.mp ((insertByTimestamp_perm e xs).mem_iff.mp hb) with rfl | hb2
      · omega
      · exact h.1 b hb2

theorem sortByTimestamp_sorted (l : List ConfigHistoryEntry) :
    (sortByTimestamp l).Sorted (fun a b => a.timestamp ≤ b.timestamp) := by
  induction l with
  | nil => simp [sortByTimestamp]
  | cons x xs ih => exact sorted_insertByTimestamp x (sortByTimestamp xs) ih

/-- Antisymmetry of the strict timestamp order, used to identify two sorted
permutations. -/
def tsStrictAntisymm :
    IsAntisymm ConfigHistoryEntry (fun a b => a.timestamp < b.timestamp) :=
  ⟨fun _ _ h1 h2 => absurd (lt_trans h1 h2) (lt_irrefl _)⟩

theorem decodeHistoryEntry_eq (e : KvEntry) (v : JsValue)
    (hd : decodeHistoryValue e = some v) :
    decodeHistoryEntry e = ⟨v, e.created⟩ := by
  cases hop : e.operation with
  | PUT =>
    cases hpl : e.payload with
    | none => simp [decodeHistoryValue, hop, hpl] at hd
    | some w =>
      have hv : w = v := by simpa [decodeHistoryValue, hop, hpl] using hd
      simp [decodeHistoryEntry, hop, hpl, hv]
  | DEL =>
    have hv : JsValue.undef = v := by
      cases hpl : e.payload <;> simpa [decodeHistoryValue, hop, hpl] using hd
    cases hpl : e.payload <;> simp [decodeHistoryEntry, hop, hpl, ← hv]
  | PURGE =>
    have hv : JsValue.undef = v := by
      cases hpl : e.payload <;> simpa [decodeHistoryValue, hop, hpl] using hd
    cases hpl : e.payload <;> simp [decodeHistoryEntry, hop, hpl, ← hv]

theorem decodeHistoryEntries_total (l : List KvEntry)
    (h : ∀ e ∈ l, (decodeHistoryValue e).isSome = true) :
    decodeHistoryEntries l = some (l.map decodeHistoryEntry) := by
  induction l with
  | nil => rfl
  | cons e rest ih =>
    have he := h e (List.mem_cons_self e rest)
    cases hd : decodeHistoryValue e with
    | none => rw [hd] at he; simp at he
    | some v =>
      unfold decodeHistoryEntries
      rw [hd, ih (fun x hx => h x (List.mem_cons_of_mem e hx)), List.map_cons,
          decodeHistoryEntry_eq e v hd]

/-- C6: when the store delivers a key's full revision history in any order,
`history` decodes every entry — a delete becoming the explicit absent value,
never omitted — and returns the list sorted ascending by creation timestamp;
with strictly increasing creation timestamps this is exactly the chronological
creation order. -/
theorem history_returns_chronological_order (creation delivered : List KvEntry)
    (hmono : creation.Pairwise (fun a b => a.created < b.created))
    (hdec : ∀ e ∈ creation, (decodeHistoryValue e).isSome = true)
    (hperm : List.Perm delivered creation) :
    ConfigEngineManager.history delivered = some (creation.map decodeHistoryEntry) ∧
    (∀ e ∈ creation, e.operation ≠ KvOperation.PUT →
      (decodeHistoryEntry e).value = JsValue.undef) := by
  constructor
  · have hdec2 : ∀ e ∈ delivered, (decodeHistoryValue e).isSome = true :=
      fun e he => hdec e (hperm.mem_iff.mp he)
    unfold ConfigEngineManager.history
    rw [decodeHistoryEntries_total delivered hdec2]
    show some (sortByTimestamp (delivered.map decodeHistoryEntry)) =
      some (creation.map decodeHistoryEntry)
    congr 1
    have hLC : List.Perm (delivered.map decodeHistoryEntry)
        (creation.map decodeHistoryEntry) := hperm.map decodeHistoryEntry
    have hsortperm : List.Perm (sortByTimestamp (delivered.map decodeHistoryEntry))
        (creation.map decodeHistoryEntry) :=
      (sortByTimestamp_perm (delivered.map decodeHistoryEntry)).trans hLC
    have hCsorted : (creation.map decodeHistoryEntry).Sorted
        (fun a b => a.timestamp < b.timestamp) := by
      rw [List.Sorted, List.pairwise_map]
      exact hmono
    have hne : (sortByTimestamp (delivered.map decodeHistoryEntry)).Pairwise
        (fun a b => a.timestamp ≠ b.timestamp) := by
      have hCne : (creation.map decodeHistoryEntry).Pairwise
          (fun a b => a.timestamp ≠ b.timestamp) :=
        hCsorted.imp (fun h => ne_of_lt h)
      exact (List.Perm.pairwise_iff (fun h => Ne.symm h) hsortperm).mpr hCne
    have hsorted_lt : (sortByTimestamp (delivered.map decodeHistoryEntry)).Sorted
        (fun a b => a.timestamp < b.timestamp) :=
      (List.Pairwise.and (sortByTimestamp_sorted (delivered.map decodeHistoryEntry)) hne).imp
        (fun h => lt_of_le_of_ne h.1 h.2)
    exact @List.eq_of_perm_of_sorted _ _ tsStrictAntisymm _ _ hsortperm hsorted_lt hCsorted
  · intro e he hop
    cases hopv : e.operation with
    | PUT => exact absurd hopv hop
    | DEL => cases hpl : e.payload <;> simp [decodeHistoryEntry, hopv, hpl]
    | PURGE => cases hpl : e.payload <;> simp [decodeHistoryEntry, hopv, hpl]

/-- Witness for C6: writes `[A, B, delete, C]` at timestamps `1..4` delivered
rotated as `[C, A, B, delete]` come back as `[A, B, absent, C]`. -/
theorem history_returns_chronological_order_witness :
    ConfigEngineManager.history
        [⟨"t.a", .PUT, some (.str "C"), 4, 4⟩,
         ⟨"t.a", .PUT, some (.str "A"), 1, 1⟩,
         ⟨"t.a", .PUT, some (.str "B"), 2, 2⟩,
         ⟨"t.a", .DEL, none, 3, 3⟩] =
      some [⟨.str "A", 1⟩, ⟨.str "B", 2⟩, ⟨.undef, 3⟩, ⟨.str "C", 4⟩] :=
  (history_returns_chronological_order
    [⟨"t.a", .PUT, some (.str "A"), 1, 1⟩,
     ⟨"t.a", .PUT, some (.str "B"), 2, 2⟩,
     ⟨"t.a", .DEL, none, 3, 3⟩,
     ⟨"t.a", .PUT, some (.str "C"), 4, 4⟩]
    [⟨"t.a", .PUT, some (.str "C"), 4, 4⟩,
     ⟨"t.a", .PUT, some (.str "A"), 1, 1⟩,
     ⟨"t.a", .PUT, some (.str "B"), 2, 2⟩,
     ⟨"t.a", .DEL, none, 3, 3⟩]
    (by decide) (by decide)
    ((List.perm_append_singleton (⟨"t.a", .PUT, some (.str "C"), 4, 4⟩ : KvEntry)
      [⟨"t.a", .PUT, some (.str "A"), 1, 1⟩,
       ⟨"t.a", .PUT, some (.str "B"), 2, 2⟩,
       ⟨"t.a", .DEL, none, 3, 3⟩]).symm)).1
